import Mathlib

set_option maxHeartbeats 1000000
set_option maxRecDepth 10000

/-!
Shallow embedding of the core of megatech-vulkan-dispatch-tools:
the dependency-expression tokenizer and evaluator from
`megatech/vulkan/library/VulkanFeature.py`, the command-set container from
`megatech/vulkan/library/VulkanCommand.py`, the version parser from
`megatech/vulkan/library/VulkanVersion.py`, the extension-enabling logic of
`megatech/vulkan/library/VulkanSpecification.py`, and the resolver algorithm
of `megatech/vulkan/applications/DispatchTableGenerator.py` (`run`).

Python strings are modelled as `List Char` internally (tokens) and `String`
at the API edges.  Python exceptions (`ValueError`) are modelled with
`Except`.  Python sets of strings are modelled as `List String` with
membership by equality.
-/

/-- Errors raised by `Tokenizer.__consume` (the two `ValueError` messages,
each of which reports the index of the offending parenthesis). -/
inductive TokError where
  | unmatchedOpen (idx : Nat)
  | unmatchedClose (idx : Nat)
deriving DecidableEq

/-- One step of `Tokenizer.__consume` (VulkanFeature.py lines 31-53).
`none` means the consume loop stops (token boundary); `some` carries the
updated paren stack and end index.  The Python stack is a list with
`append`/`pop`/`[-1]` at the end; we model it with `cons`/`tail`/`head` at
the front. -/
def consume (text : List Char) (term : Char) (stack : List Nat) (e : Nat) :
    Except TokError (Option (List Nat × Nat)) :=
  if h : e < text.length then
    let c := text.get ⟨e, h⟩
    if c = '(' then .ok (some (e :: stack, e + 1))
    else if c = ')' then
      match stack with
      | [] => .error (.unmatchedClose e)
      | _ :: rest => .ok (some (rest, e + 1))
    else if c = term ∧ stack = [] then .ok none
    else .ok (some (stack, e + 1))
  else
    match stack with
    | [] => .ok none
    | top :: _ => .error (.unmatchedOpen top)

/-- The consume loop of `Tokenizer.next_token`: repeat `consume` until it
stops, returning the end index of the token.  Each running step advances
the end index by one, so fuel `text.length + 1 - e` always suffices; the
fuel-exhausted branch is unreachable under that bound. -/
def scanTok (text : List Char) (term : Char) : Nat → List Nat → Nat → Except TokError Nat
  | 0, _, e => .ok e
  | fuel + 1, stack, e =>
    match consume text term stack e with
    | .error err => .error err
    | .ok none => .ok e
    | .ok (some (stack2, e2)) => scanTok text term fuel stack2 e2

/-- `_tokenize` (VulkanFeature.py lines 108-112): keep taking tokens while
`has_more_characters` (`text[begin:] != ""`).  A token is the slice
`text[begin:end]` and the next token starts at `end + 1`, skipping the
terminator.  The paren stack is empty at every token boundary, so each
`next_token` starts from an empty stack. -/
def tokenizeFrom (text : List Char) (term : Char) : Nat → Nat → Except TokError (List (List Char))
  | 0, _ => .ok []
  | fuel + 1, b =>
    if text.length ≤ b then .ok []
    else
      match scanTok text term (text.length + 1 - b) [] b with
      | .error err => .error err
      | .ok e =>
        match tokenizeFrom text term fuel (e + 1) with
        | .error err => .error err
        | .ok toks => .ok (((text.drop b).take (e - b)) :: toks)

/-- Tokenize a whole text with the given terminator (`CommaTokenizer` for
`','`, `PlusTokenizer` for `'+'`). -/
def tokenizeAll (text : List Char) (term : Char) : Except TokError (List (List Char)) :=
  tokenizeFrom text term (text.length + 1) 0

/-- Python `token[1 : len(token) - 1]`: strip the first and last character. -/
def stripParens (t : List Char) : List Char := (t.drop 1).dropLast

/-- `_check_dependencies_loop` (VulkanFeature.py lines 120-127), abstracted
over the recursive evaluator `f`: evaluate each token, stripping one level
of parentheses when the token starts with `'('`.  The first error
propagates, as the Python exception would. -/
def depLoop (f : List Char → Except TokError Bool) :
    List (List Char) → Except TokError (List Bool)
  | [] => .ok []
  | t :: ts =>
    match (if t.head? = some '(' then f (stripParens t) else f t) with
    | .error err => .error err
    | .ok b =>
      match depLoop f ts with
      | .error err => .error err
      | .ok bs => .ok (b :: bs)

/-- `_check_dependencies` (VulkanFeature.py lines 133-143).  The fuel
argument bounds the recursion depth; every recursive call is on a strictly
shorter string, so `length + 1` fuel always suffices and the fuel-exhausted
branch is unreachable from the wrapper below. -/
def checkDepsF (feats : List String) : Nat → List Char → Except TokError Bool
  | 0, _ => .ok false
  | fuel + 1, s =>
    match tokenizeAll s ',' with
    | .error err => .error err
    | .ok ts =>
      match ts with
      | [t] =>
        match tokenizeAll t '+' with
        | .error err => .error err
        | .ok us =>
          match us with
          | [u] => .ok (feats.contains (String.mk u))
          | _ =>
            match depLoop (checkDepsF feats fuel) us with
            | .error err => .error err
            | .ok rs => .ok ((rs.count true) == rs.length)
      | _ =>
        match depLoop (checkDepsF feats fuel) ts with
        | .error err => .error err
        | .ok rs => .ok (rs.contains true)

/-- The expression evaluator `satisfies(expr, active_names)` of the spec,
implemented by `_check_dependencies`. -/
def satisfies (s : String) (feats : List String) : Except TokError Bool :=
  checkDepsF feats (s.data.length + 1) s.data

/-- Python `sep.join(xs)`. -/
def joinSep (sep : List Char) : List (List Char) → List Char
  | [] => []
  | [x] => x
  | x :: y :: ys => x ++ sep ++ joinSep sep (y :: ys)

/-- `_to_header_guard_loop` (VulkanFeature.py lines 150-157), abstracted
over the recursive compiler `f`: parenthesized tokens are stripped,
compiled, and re-wrapped in literal parentheses. -/
def guardLoop (f : List Char → Except TokError (List Char)) :
    List (List Char) → Except TokError (List (List Char))
  | [] => .ok []
  | t :: ts =>
    match (if t.head? = some '(' then
             match f (stripParens t) with
             | .error err => .error err
             | .ok g => .ok ('(' :: g ++ [')'])
           else f t) with
    | .error err => .error err
    | .ok g =>
      match guardLoop f ts with
      | .error err => .error err
      | .ok gs => .ok (g :: gs)

/-- `_to_header_guard` (VulkanFeature.py lines 163-171). -/
def toHeaderGuardF : Nat → List Char → Except TokError (List Char)
  | 0, _ => .ok []
  | fuel + 1, s =>
    match tokenizeAll s ',' with
    | .error err => .error err
    | .ok ts =>
      match ts with
      | [t] =>
        match tokenizeAll t '+' with
        | .error err => .error err
        | .ok us =>
          match us with
          | [u] => .ok ("defined(".data ++ u ++ [')'])
          | _ =>
            match guardLoop (toHeaderGuardF fuel) us with
            | .error err => .error err
            | .ok gs => .ok (joinSep " && ".data gs)
      | _ =>
        match guardLoop (toHeaderGuardF fuel) ts with
        | .error err => .error err
        | .ok gs => .ok (joinSep " || ".data gs)

/-- The guard compiler `to_guard(expr)` of the spec, implemented by
`_to_header_guard`. -/
def toGuard (s : String) : Except TokError String :=
  match toHeaderGuardF (s.data.length + 1) s.data with
  | .error err => .error err
  | .ok g => .ok (String.mk g)

/-- `VulkanCommandLevel` (VulkanCommand.py lines 12-27). -/
inductive VulkanCommandLevel where
  | GLOBAL
  | INSTANCE
  | DEVICE
deriving DecidableEq

/-- `VulkanCommand`: after construction only the name and the derived level
remain observable; equality compares both (VulkanCommand.py lines 97-98). -/
structure VulkanCommand where
  name : String
  level : VulkanCommandLevel
deriving DecidableEq

/-- `VulkanCommandSet` (VulkanCommand.py lines 101-149): three per-level
Python sets, modelled as duplicate-free lists. -/
structure VulkanCommandSet where
  globalCmds : List VulkanCommand
  instanceCmds : List VulkanCommand
  deviceCmds : List VulkanCommand
deriving DecidableEq

def VulkanCommandSet.empty : VulkanCommandSet := ⟨[], [], []⟩

/-- `VulkanCommandSet.__contains__` (line 143-144). -/
def VulkanCommandSet.memB (cs : VulkanCommandSet) (c : VulkanCommand) : Bool :=
  cs.globalCmds.contains c || cs.instanceCmds.contains c || cs.deviceCmds.contains c

/-- `VulkanCommandSet.add` (lines 110-111): insert into the tier selected by
the command's level (set insertion: a no-op when already present). -/
def VulkanCommandSet.add (cs : VulkanCommandSet) (c : VulkanCommand) : VulkanCommandSet :=
  match c.level with
  | .GLOBAL =>
    if cs.globalCmds.contains c then cs else { cs with globalCmds := c :: cs.globalCmds }
  | .INSTANCE =>
    if cs.instanceCmds.contains c then cs else { cs with instanceCmds := c :: cs.instanceCmds }
  | .DEVICE =>
    if cs.deviceCmds.contains c then cs else { cs with deviceCmds := c :: cs.deviceCmds }

/-- `VulkanCommandSet.remove` (lines 116-118): a no-op when the command is
not a member, otherwise delete it from its level's tier. -/
def VulkanCommandSet.remove (cs : VulkanCommandSet) (c : VulkanCommand) : VulkanCommandSet :=
  if cs.memB c then
    match c.level with
    | .GLOBAL => { cs with globalCmds := cs.globalCmds.filter (fun x => x != c) }
    | .INSTANCE => { cs with instanceCmds := cs.instanceCmds.filter (fun x => x != c) }
    | .DEVICE => { cs with deviceCmds := cs.deviceCmds.filter (fun x => x != c) }
  else cs

/-- Python `command_set.remove(command_set.find(name))`: removing `None`
is a no-op because `None in self` is false. -/
def VulkanCommandSet.removeOpt (cs : VulkanCommandSet) : Option VulkanCommand → VulkanCommandSet
  | none => cs
  | some c => cs.remove c

/-- Modelled from the spec: `VulkanCommandSet.find` is called by
`DispatchTableGenerator.run` and exercised by the repository's tests, but
its definition is absent from the `VulkanCommand.py` under review.  Per the
spec, "`find(name)` returns the matching Command or none": search the union
of the three tiers for a command whose name equals `n`. -/
def VulkanCommandSet.find (cs : VulkanCommandSet) (n : String) : Option VulkanCommand :=
  (cs.globalCmds ++ cs.instanceCmds ++ cs.deviceCmds).find? (fun c => c.name == n)

/-- `VulkanRequirement` (VulkanFeature.py lines 182-219): a set of resolved
commands plus the `depends` string (`""` when absent). -/
structure VulkanRequirement where
  commands : List VulkanCommand
  dependency : String

/-- `VulkanRequirement.is_satisfied` (lines 211-214): an empty dependency is
unconditionally satisfied, otherwise delegate to `_check_dependencies`. -/
def VulkanRequirement.is_satisfied (r : VulkanRequirement) (feats : List String) :
    Except TokError Bool :=
  if r.dependency = "" then .ok true else satisfies r.dependency feats

/-- `VulkanRequirement.to_header_guard` (lines 218-219): always delegates to
`_to_header_guard`, even for the empty dependency. -/
def VulkanRequirement.to_header_guard (r : VulkanRequirement) : Except TokError String :=
  toGuard r.dependency

/-- The fields of `VulkanFeature` (VulkanFeature.py lines 225-364) used by
the resolver: name, `depends` string, requirements, removed command names,
the raw `deprecatedby` attribute and the supported-API set. -/
structure VulkanFeature where
  name : String
  dependency : String
  requirements : List VulkanRequirement
  removals : List String
  deprecatedBy : Option String
  supportedApis : List String

/-- `VulkanFeature.deprecated` (lines 363-364): Python `bool(x)` of the raw
`deprecatedby` attribute — false for `None` and for the empty string. -/
def VulkanFeature.deprecated (f : VulkanFeature) : Bool :=
  match f.deprecatedBy with
  | none => false
  | some s => !(s == "")

/-- `VulkanFeature.is_satisfied` (lines 348-351). -/
def VulkanFeature.is_satisfied (f : VulkanFeature) (feats : List String) :
    Except TokError Bool :=
  if f.dependency = "" then .ok true else satisfies f.dependency feats

/-- Errors raised by `DispatchTableGenerator.run`: a propagated tokenizer
error or the unmet-dependency `ValueError`. -/
inductive RunError where
  | tok (e : TokError)
  | unmetDependency (name : String)
deriving DecidableEq

/-- The addition phase of `DispatchTableGenerator.run` for one enabled
feature or extension (lines 143-171): an unmet feature-level dependency is
fatal; each requirement whose own dependency is satisfied contributes its
commands; an unsatisfied requirement is skipped (the warning is a no-op
here). -/
def addFeatureCommands (enabled : List String) (cs0 : VulkanCommandSet)
    (f : VulkanFeature) : Except RunError VulkanCommandSet :=
  match f.is_satisfied enabled with
  | .error e => .error (.tok e)
  | .ok false => .error (.unmetDependency f.name)
  | .ok true =>
    f.requirements.foldlM (fun cs r =>
      match r.is_satisfied enabled with
      | .error e => .error (.tok e)
      | .ok true => .ok (r.commands.foldl VulkanCommandSet.add cs)
      | .ok false => .ok cs) cs0

/-- One feature's removal pass: `for removal in f.removals():
command_set.remove(command_set.find(removal))`. -/
def applyRemovals (cs0 : VulkanCommandSet) (f : VulkanFeature) : VulkanCommandSet :=
  f.removals.foldl (fun cs n => cs.removeOpt (cs.find n)) cs0

/-- The command-set portion of `DispatchTableGenerator.run` (lines 137-180),
taking the enabled core features and enabled extensions in their iteration
order.  The removal phase is modelled faithfully, including the stale loop
variable in the extension-removal loop: the Python code assigns
`extensions = spec.extensions()[name]` (an unused variable) and then reads
`extension.removals()` — the binding left over from the extension addition
loop, i.e. the last-iterated extension — once per enabled extension name. -/
def runCommandSet (features exts : List VulkanFeature) : Except RunError VulkanCommandSet :=
  let enabled := features.map VulkanFeature.name ++ exts.map VulkanFeature.name
  match features.foldlM (addFeatureCommands enabled) VulkanCommandSet.empty with
  | .error e => .error e
  | .ok cs1 =>
    match exts.foldlM (addFeatureCommands enabled) cs1 with
    | .error e => .error e
    | .ok cs2 =>
      let cs3 := features.foldl applyRemovals cs2
      let cs4 :=
        match exts.getLast? with
        | none => cs3
        | some lastExt => exts.foldl (fun cs _ => applyRemovals cs lastExt) cs3
      .ok cs4

/-- `VulkanSpecification.__init__` lines 84-87: whether an extension node
ends up enabled, starting from the disabled default.  Mirrors the two
nested conditionals guarding `parsed.enable()`. -/
def extensionEnabledAfterParse (f : VulkanFeature) (api : String) (requested : List String)
    (enableDeprecated : Bool) : Bool :=
  if f.supportedApis.contains api && (requested.contains f.name || requested.contains "all") then
    if !f.deprecated || (enableDeprecated && f.deprecated) then true else false
  else false

/-- `VulkanVersion` (VulkanVersion.py): a major/minor pair. -/
structure VulkanVersion where
  major : Nat
  minor : Nat
deriving DecidableEq

/-- Python's regex class `\s`: `[ \t\n\r\f\v]` (ASCII). -/
def pyIsSpace (c : Char) : Bool :=
  c = ' ' || c = '\t' || c = '\n' || c = '\r' || c = '\x0b' || c = '\x0c'

/-- Python `int(digit_string, 10)` on a string of decimal digits. -/
def natOfDigits (cs : List Char) : Nat :=
  cs.foldl (fun a c => a * 10 + (c.toNat - 48)) 0

/-- The match `re.match(r"^\s*(\d+)\.(\d+)", version)` followed by decimal
conversion of the two groups (VulkanVersion.py lines 24-27).  The regex is
anchored, `\s*` and each `\d+` are effectively maximal here (no useful
backtracking exists: a digit is never a space and `'.'` is never a digit),
and everything after the second digit group is ignored.  Digits are
modelled as ASCII `0`-`9`. -/
def parseXY (cs : List Char) : Option (Nat × Nat) :=
  let rest := cs.dropWhile pyIsSpace
  let d1 := rest.takeWhile Char.isDigit
  let r1 := rest.dropWhile Char.isDigit
  if d1.isEmpty then none
  else if r1.head? = some '.' then
    let d2 := r1.tail.takeWhile Char.isDigit
    if d2.isEmpty then none else some (natOfDigits d1, natOfDigits d2)
  else none

/-- `VulkanVersion.__init__` (lines 21-29): `None` input and any input
without a leading `\d+\.\d+` match raise `ValueError`, modelled as `none`. -/
def VulkanVersion.parse : Option String → Option VulkanVersion
  | none => none
  | some s =>
    match parseXY s.data with
    | none => none
    | some (a, b) => some ⟨a, b⟩

/-- The decimal digit character for `d < 10`. -/
def digitChar (d : Nat) : Char := Char.ofNat (48 + d)

/-- Decimal rendering of a natural number (Python `str(int)`), by fuel so
that it is structurally recursive and kernel-reducible. -/
def decCharsAux : Nat → Nat → List Char
  | 0, _ => []
  | fuel + 1, n =>
    if n < 10 then [digitChar n] else decCharsAux fuel (n / 10) ++ [digitChar (n % 10)]

/-- Decimal rendering of a natural number. -/
def decChars (n : Nat) : List Char := decCharsAux (n + 1) n

/-- `VulkanVersion.__str__` (lines 83-84): `f"{major}.{minor}"`. -/
def VulkanVersion.str (v : VulkanVersion) : String :=
  String.mk (decChars v.major ++ '.' :: decChars v.minor)

/-- The anchored regex `^\s*(\d+)\.(\d+)` matches `cs`: there is a
decomposition into a (possibly empty) whitespace prefix, a nonempty digit
group, a literal `'.'`, a nonempty digit group, and arbitrary trailing
text. -/
def hasVersionMatch (cs : List Char) : Prop :=
  ∃ ws d1 d2 rest, cs = ws ++ d1 ++ '.' :: (d2 ++ rest) ∧
    (∀ c ∈ ws, pyIsSpace c = true) ∧ d1 ≠ [] ∧ (∀ c ∈ d1, c.isDigit = true) ∧
    d2 ≠ [] ∧ (∀ c ∈ d2, c.isDigit = true)

/-- Number of `'('` among the first `k` characters. -/
def opensCnt (cs : List Char) (k : Nat) : Nat := (cs.take k).count '('

/-- Number of `')'` among the first `k` characters. -/
def closesCnt (cs : List Char) (k : Nat) : Nat := (cs.take k).count ')'

/-- The text contains an unmatched parenthesis: either some prefix has more
closing than opening parentheses (an unmatched `')'`), or the totals
disagree (an unmatched `'('`). -/
def unbalancedParens (cs : List Char) : Prop :=
  (∃ k, k ≤ cs.length ∧ opensCnt cs k < closesCnt cs k) ∨
    opensCnt cs cs.length ≠ closesCnt cs cs.length

/-- Active-name list over the three names used in the expression-engine
test vectors, one Bool per name. -/
def activeNames (a b c : Bool) : List String :=
  (if a then ["A"] else []) ++ (if b then ["B"] else []) ++ (if c then ["C"] else [])

/-- The tokenizer error identifies the index of an offending parenthesis:
an unmatched-`')'` error points at a `')'` in the text and an
unmatched-`'('` error points at a `'('`. -/
def tokErrSpec (text : List Char) : TokError → Prop
  | .unmatchedOpen i => i < text.length ∧ text.getD i ' ' = '('
  | .unmatchedClose i => i < text.length ∧ text.getD i ' ' = ')'

/-- Invariant carried by a run of the token scanner started at index `e`:
on success it stops at an index `e2 ≥ e` with balanced counts on every
prefix up to `e2`, at the end of the text or on a terminator; on failure
the error satisfies `tokErrSpec`. -/
def scanResSpec (text : List Char) (term : Char) (e : Nat) : Except TokError Nat → Prop
  | .ok e2 =>
      e ≤ e2 ∧ e2 ≤ text.length ∧ closesCnt text e2 = opensCnt text e2 ∧
      (∀ k, k ≤ e2 → closesCnt text k ≤ opensCnt text k) ∧
      (e2 = text.length ∨ (e2 < text.length ∧ text.getD e2 ' ' = term))
  | .error err => tokErrSpec text err

/-- Specification of a full tokenization run: on success the whole text is
balanced (every prefix has at least as many `'('` as `')'`, with equality
at the end); on failure the error satisfies `tokErrSpec`. -/
def tokResSpec (text : List Char) : Except TokError (List (List Char)) → Prop
  | .ok _ =>
      (∀ k, k ≤ text.length → closesCnt text k ≤ opensCnt text k) ∧
      closesCnt text text.length = opensCnt text text.length
  | .error err => tokErrSpec text err

/-! ## Helper lemmas -/

theorem list_contains_true_or (x y : Bool) : ([x, false, y].contains true) = (x || y) := by
  cases x <;> cases y <;> rfl

theorem list_and_or_shape (x y z : Bool) :
    ([((([x, y].count true) == 2 : Bool)), z].contains true) = ((x && y) || z) := by
  cases x <;> cases y <;> cases z <;> rfl

theorem list_or_and_shape (x y z : Bool) :
    ([x, (([y, z].count true) == 2 : Bool)].contains true) = (x || (y && z)) := by
  cases x <;> cases y <;> cases z <;> rfl

/-! ## C1 -/

/-- C1: the dependency evaluator `satisfies` (implemented by
`_check_dependencies`) validates all seven test vectors, and AND (`+`)
binds strictly tighter than OR (`,`): for every active-name list,
`"A+B,C"` evaluates as `(A ∧ B) ∨ C` and `"A,B+C"` as `A ∨ (B ∧ C)`. -/
theorem claim1_expression_engine :
    satisfies "A" ["A"] = .ok true ∧
    satisfies "A" [] = .ok false ∧
    satisfies "A+B" ["A"] = .ok false ∧
    satisfies "A+B" ["A", "B"] = .ok true ∧
    satisfies "A,B" ["B"] = .ok true ∧
    satisfies "(A,B)+C" ["B", "C"] = .ok true ∧
    satisfies "(A,B)+C" ["B"] = .ok false ∧
    (∀ feats : List String,
      satisfies "A+B,C" feats =
        .ok ((feats.contains "A" && feats.contains "B") || feats.contains "C")) ∧
    (∀ feats : List String,
      satisfies "A,B+C" feats =
        .ok (feats.contains "A" || (feats.contains "B" && feats.contains "C"))) := by
  refine ⟨rfl, rfl, rfl, rfl, rfl, rfl, rfl, ?_, ?_⟩
  · intro feats
    have mid : satisfies "A+B,C" feats =
        .ok ([((([feats.contains "A", feats.contains "B"].count true) == 2 : Bool)),
              feats.contains "C"].contains true) := rfl
    rw [mid, list_and_or_shape]
  · intro feats
    have mid : satisfies "A,B+C" feats =
        .ok ([feats.contains "A",
              ((([feats.contains "B", feats.contains "C"].count true) == 2 : Bool))].contains
             true) := rfl
    rw [mid, list_or_and_shape]

/-! ## C2 -/

/-- C2: evaluating `DispatchTableGenerator.run`'s command-set computation at
a failing input.  The core feature `VK_VERSION_1_0` adds `vkFoo`; the
enabled extension `VK_E1` lists `vkFoo` in its removal set.  Because the
extension-removal loop reads the stale loop variable `extension` (the
extension last iterated by the addition loop) instead of the extension
bound to the current name, `vkFoo` survives when `VK_E2` is iterated last
(first conjunct) and is removed only when `VK_E1` happens to be iterated
last (second conjunct) — the final set depends on iteration order, and a
command in an enabled extension's removal set can remain present. -/
theorem claim2_extension_removals_stale_variable :
    (runCommandSet
        [⟨"VK_VERSION_1_0", "", [⟨[⟨"vkFoo", .GLOBAL⟩], ""⟩], [], none, ["vulkan"]⟩]
        [⟨"VK_E1", "", [], ["vkFoo"], none, ["vulkan"]⟩,
         ⟨"VK_E2", "", [], [], none, ["vulkan"]⟩]).map
      (fun cs => cs.memB ⟨"vkFoo", .GLOBAL⟩) = .ok true ∧
    (runCommandSet
        [⟨"VK_VERSION_1_0", "", [⟨[⟨"vkFoo", .GLOBAL⟩], ""⟩], [], none, ["vulkan"]⟩]
        [⟨"VK_E2", "", [], [], none, ["vulkan"]⟩,
         ⟨"VK_E1", "", [], ["vkFoo"], none, ["vulkan"]⟩]).map
      (fun cs => cs.memB ⟨"vkFoo", .GLOBAL⟩) = .ok false := ⟨rfl, rfl⟩

/-! ## C3 -/

/-- C3: evaluating `_check_dependencies` at the failing input.  The
expression `"(A)"` tokenizes to exactly one top-level comma segment that is
exactly one plus segment, but the evaluator tests the segment verbatim —
`"(A)" in features` — without stripping the enclosing parentheses, so the
result is false even though `"A"` is active (first conjunct); the bare name
behaves as the claim describes (second conjunct). -/
theorem claim3_parenthesized_segment_eval :
    satisfies "(A)" ["A"] = .ok false ∧ satisfies "A" ["A"] = .ok true := ⟨rfl, rfl⟩

/-! ## C7 -/

/-- C7 counterexample: the expression `","` consists of a single empty
top-level comma segment, and for the empty active-name set the claim
demands that the empty segment act as a never-matching literal name, i.e.
the result be false; but `_check_dependencies` returns true: the comma
split of `","` yields the single token `""`, whose plus split yields no
tokens at all, and the all-of-an-empty-list AND check succeeds vacuously. -/
theorem claim7_empty_segment_counterexample : satisfies "," [] = .ok true := rfl

/-- C7 (amended): an empty segment evaluated as an OR branch is always
false at every recursion depth and for every active-name set (first
conjunct), so an empty segment among multiple top-level comma segments
makes only its own branch false without the expression being rejected:
`"A,,B"` evaluates as `A ∨ B` (second conjunct).  A trailing comma produces
no empty segment at all — `"A,"` evaluates exactly as membership of `"A"`
(third conjunct) — and an expression that is a single empty segment, such
as `","`, instead evaluates to true via the vacuous AND path (fourth
conjunct). -/
theorem claim7_empty_segment_amended :
    (∀ (feats : List String) (fuel : Nat), checkDepsF feats fuel [] = .ok false) ∧
    (∀ feats : List String,
      satisfies "A,,B" feats = .ok (feats.contains "A" || feats.contains "B")) ∧
    (∀ feats : List String, satisfies "A," feats = .ok (feats.contains "A")) ∧
    (∀ feats : List String, satisfies "," feats = .ok true) := by
  refine ⟨?_, ?_, fun feats => rfl, fun feats => rfl⟩
  · intro feats fuel
    cases fuel <;> rfl
  · intro feats
    have mid : satisfies "A,,B" feats =
        .ok ([feats.contains "A", false, feats.contains "B"].contains true) := rfl
    rw [mid, list_contains_true_or]

/-! ## C10 -/

/-- C10: a `VulkanRequirement` whose dependency string is empty is
unconditionally satisfied for every active-name set, yet its
`to_header_guard` is the empty string (the `" || "` join of no tokens),
not any `defined(...)` expression. -/
theorem claim10_unconditional_requirement (cmds : List VulkanCommand) (feats : List String) :
    (VulkanRequirement.mk cmds "").is_satisfied feats = .ok true ∧
    (VulkanRequirement.mk cmds "").to_header_guard = .ok "" := ⟨rfl, rfl⟩

/-! ## C4 -/

/-- C4: the modelled `VulkanCommandSet.find` returns, for every command set
and every name, a member command whose name matches, or `none` exactly when
no member's name matches. -/
theorem claim4_find_matching_or_none (cs : VulkanCommandSet) (n : String) :
    (∀ c, cs.find n = some c → cs.memB c = true ∧ c.name = n) ∧
    (cs.find n = none → ∀ c, cs.memB c = true → c.name ≠ n) := by
  constructor
  · intro c hc
    unfold VulkanCommandSet.find at hc
    have hmem : c ∈ cs.globalCmds ++ cs.instanceCmds ++ cs.deviceCmds :=
      List.mem_of_find?_eq_some hc
    have hp := List.find?_some hc
    simp only at hp
    refine ⟨?_, eq_of_beq hp⟩
    simp only [VulkanCommandSet.memB, Bool.or_eq_true]
    simpa [List.mem_append, or_assoc] using hmem
  · intro hn c hcmem hname
    unfold VulkanCommandSet.find at hn
    have hmem : c ∈ cs.globalCmds ++ cs.instanceCmds ++ cs.deviceCmds := by
      simp only [VulkanCommandSet.memB, Bool.or_eq_true] at hcmem
      simpa [List.mem_append, or_assoc] using hcmem
    have hnp := List.find?_eq_none.mp hn c hmem
    exact hnp (by simp [hname])

/-- C4 witness: applying the theorem to a concrete one-element command set
and the name of its member. -/
theorem claim4_find_matching_or_none_witness :
    VulkanCommandSet.memB ⟨[⟨"vkFoo", .GLOBAL⟩], [], []⟩ ⟨"vkFoo", .GLOBAL⟩ = true ∧
    VulkanCommand.name ⟨"vkFoo", .GLOBAL⟩ = "vkFoo" :=
  (claim4_find_matching_or_none ⟨[⟨"vkFoo", .GLOBAL⟩], [], []⟩ "vkFoo").1
    ⟨"vkFoo", .GLOBAL⟩ rfl

/-! ## C5 -/

/-- C5: the guard compiler `to_guard` (implemented by `_to_header_guard`)
produces the two claimed guards — children of the AND group joined with
`" && "`, children of the OR group joined with `" || "`, and the
parenthesized multi-child subexpression re-wrapped in literal parentheses —
and compiles a bare name (a text that is its own single comma segment and
single plus segment) to `defined(NAME)`. -/
theorem claim5_guard_compiler :
    toGuard "A+B" = .ok "defined(A) && defined(B)" ∧
    toGuard "(A,B)+C" = .ok "(defined(A) || defined(B)) && defined(C)" ∧
    (∀ n : String, tokenizeAll n.data ',' = .ok [n.data] →
      tokenizeAll n.data '+' = .ok [n.data] →
      toGuard n = .ok ("defined(" ++ n ++ ")")) := by
  refine ⟨rfl, rfl, ?_⟩
  intro n h1 h2
  obtain ⟨l⟩ := n
  simp only [String.data] at h1 h2
  simp only [toGuard, toHeaderGuardF, String.data, h1, h2]
  refine congrArg Except.ok (String.ext ?_)
  simp [String.data_append]

/-- C5 witness: the bare-name rule applied at `"A"`. -/
theorem claim5_guard_compiler_witness : toGuard "A" = .ok "defined(A)" :=
  claim5_guard_compiler.2.2 "A" rfl rfl

/-! ## C8 -/

/-- C8: after `VulkanSpecification.__init__` parses an extension node, the
extension is enabled exactly when its supported-API set contains the
requested API name, its name is explicitly requested or the wildcard
`"all"` was requested, and it is not deprecated or deprecated features were
allowed; in particular a deprecated extension is never enabled when
deprecated features are disallowed, even if explicitly requested. -/
theorem claim8_extension_enablement :
    (∀ (f : VulkanFeature) (api : String) (requested : List String)
       (enableDeprecated : Bool),
      extensionEnabledAfterParse f api requested enableDeprecated =
        (f.supportedApis.contains api &&
         (requested.contains f.name || requested.contains "all") &&
         (!f.deprecated || enableDeprecated))) ∧
    (∀ (f : VulkanFeature) (api : String) (requested : List String),
      f.deprecated = true → extensionEnabledAfterParse f api requested false = false) := by
  constructor
  · intro f api requested enableDeprecated
    unfold extensionEnabledAfterParse
    cases hs : f.supportedApis.contains api <;>
      cases hn : requested.contains f.name <;>
        cases ha : requested.contains "all" <;>
          cases hd : f.deprecated <;>
            cases enableDeprecated <;> simp [hs, hn, ha, hd]
  · intro f api requested hd
    unfold extensionEnabledAfterParse
    split <;> simp [hd]

/-- C8 witness: a deprecated extension (nonempty `deprecatedby`), explicitly
requested by name, stays disabled when deprecated features are
disallowed. -/
theorem claim8_extension_enablement_witness :
    extensionEnabledAfterParse
      ⟨"VK_EXT_debug_report", "", [], [], some "VK_EXT_debug_utils", ["vulkan"]⟩
      "vulkan" ["VK_EXT_debug_report"] false = false :=
  claim8_extension_enablement.2
    ⟨"VK_EXT_debug_report", "", [], [], some "VK_EXT_debug_utils", ["vulkan"]⟩
    "vulkan" ["VK_EXT_debug_report"] rfl

/-! ## C9 helper lemmas -/

theorem isDigit_not_space {c : Char} (h : c.isDigit = true) : pyIsSpace c = false := by
  cases hsp : pyIsSpace c
  · rfl
  · exfalso
    simp only [pyIsSpace, Bool.or_eq_true, decide_eq_true_eq] at hsp
    rcases hsp with ((((h1 | h1) | h1) | h1) | h1) | h1 <;> subst h1 <;>
      exact absurd h (by decide)

theorem digitChar_isDigit {d : Nat} (h : d < 10) : (digitChar d).isDigit = true := by
  interval_cases d <;> decide

theorem digitChar_val {d : Nat} (h : d < 10) : (digitChar d).toNat - 48 = d := by
  interval_cases d <;> decide

theorem decCharsAux_fuel :
    ∀ (n f1 f2 : Nat), n < f1 → n < f2 → decCharsAux f1 n = decCharsAux f2 n := by
  intro n
  induction n using Nat.strong_induction_on with
  | _ n ih =>
    intro f1 f2 h1 h2
    cases f1 with
    | zero => omega
    | succ f1 =>
      cases f2 with
      | zero => omega
      | succ f2 =>
        simp only [decCharsAux]
        by_cases h : n < 10
        · simp [h]
        · simp only [if_neg h]
          rw [ih (n / 10) (by omega) f1 f2 (by omega) (by omega)]

theorem decChars_def (n : Nat) :
    decChars n = if n < 10 then [digitChar n] else decChars (n / 10) ++ [digitChar (n % 10)] := by
  by_cases h : n < 10
  · rw [if_pos h]
    show decCharsAux (n + 1) n = [digitChar n]
    simp only [decCharsAux, if_pos h]
  · rw [if_neg h]
    show decCharsAux (n + 1) n = decChars (n / 10) ++ [digitChar (n % 10)]
    simp only [decCharsAux, if_neg h]
    congr 1
    exact decCharsAux_fuel (n / 10) n (n / 10 + 1) (by omega) (by omega)

theorem decChars_all_digit (n : Nat) : ∀ c ∈ decChars n, c.isDigit = true := by
  induction n using Nat.strong_induction_on with
  | _ n ih =>
    rw [decChars_def]
    by_cases h : n < 10
    · simp only [if_pos h, List.mem_singleton]
      intro c hc
      subst hc
      exact digitChar_isDigit h
    · simp only [if_neg h, List.mem_append, List.mem_singleton]
      intro c hc
      rcases hc with hc | hc
      · exact ih (n / 10) (by omega) c hc
      · subst hc
        exact digitChar_isDigit (by omega)

theorem decChars_ne_nil (n : Nat) : decChars n ≠ [] := by
  rw [decChars_def]
  by_cases h : n < 10 <;> simp [h]

theorem natOfDigits_append_one (xs : List Char) (c : Char) :
    natOfDigits (xs ++ [c]) = natOfDigits xs * 10 + (c.toNat - 48) := by
  simp [natOfDigits, List.foldl_append]

theorem natOfDigits_decChars (n : Nat) : natOfDigits (decChars n) = n := by
  induction n using Nat.strong_induction_on with
  | _ n ih =>
    rw [decChars_def]
    by_cases h : n < 10
    · rw [if_pos h]
      show natOfDigits [digitChar n] = n
      simp [natOfDigits, digitChar_val h]
    · rw [if_neg h]
      rw [natOfDigits_append_one, ih (n / 10) (by omega), digitChar_val (by omega : n % 10 < 10)]
      omega

theorem takeWhile_all_eq {p : Char → Bool} :
    ∀ xs : List Char, (∀ c ∈ xs, p c = true) → xs.takeWhile p = xs := by
  intro xs
  induction xs with
  | nil => intro; rfl
  | cons x l ih =>
    intro h
    rw [List.takeWhile_cons_of_pos (h x (List.mem_cons_self x l))]
    rw [ih (fun c hc => h c (List.mem_cons_of_mem x hc))]

theorem takeWhile_append_stop {p : Char → Bool} :
    ∀ (xs : List Char) (y : Char) (ys : List Char), (∀ c ∈ xs, p c = true) → p y = false →
      (xs ++ y :: ys).takeWhile p = xs ∧ (xs ++ y :: ys).dropWhile p = y :: ys := by
  intro xs
  induction xs with
  | nil =>
    intro y ys _ hy
    constructor
    · exact List.takeWhile_cons_of_neg (by simp [hy])
    · exact List.dropWhile_cons_of_neg (by simp [hy])
  | cons x l ih =>
    intro y ys hall hy
    have hx : p x = true := hall x (List.mem_cons_self x l)
    have ihl := ih y ys (fun c hc => hall c (List.mem_cons_of_mem x hc)) hy
    constructor
    · rw [List.cons_append, List.takeWhile_cons_of_pos hx, ihl.1]
    · rw [List.cons_append, List.dropWhile_cons_of_pos hx, ihl.2]

theorem mem_takeWhile_pred {p : Char → Bool} :
    ∀ (xs : List Char) (c : Char), c ∈ xs.takeWhile p → p c = true := by
  intro xs
  induction xs with
  | nil => intro c hc; exact absurd hc (by simp)
  | cons x l ih =>
    intro c hc
    by_cases hx : p x = true
    · rw [List.takeWhile_cons_of_pos hx] at hc
      rcases List.mem_cons.mp hc with hc | hc
      · subst hc; exact hx
      · exact ih c hc
    · rw [List.takeWhile_cons_of_neg (by simpa using hx)] at hc
      exact absurd hc (by simp)

theorem parseXY_render (a b : Nat) :
    parseXY (decChars a ++ '.' :: decChars b) = some (a, b) := by
  obtain ⟨x, xs, hx⟩ := List.exists_cons_of_ne_nil (decChars_ne_nil a)
  have hxd : x.isDigit = true := decChars_all_digit a x (by rw [hx]; exact List.mem_cons_self x xs)
  have hdrop : (decChars a ++ '.' :: decChars b).dropWhile pyIsSpace =
      decChars a ++ '.' :: decChars b := by
    rw [hx, List.cons_append]
    exact List.dropWhile_cons_of_neg (by simp [isDigit_not_space hxd])
  have hspan := takeWhile_append_stop (decChars a) '.' (decChars b)
    (decChars_all_digit a) (by decide)
  have hie : (decChars a).isEmpty = false := by rw [hx]; rfl
  have htw2 : (decChars b).takeWhile Char.isDigit = decChars b :=
    takeWhile_all_eq (decChars b) (decChars_all_digit b)
  obtain ⟨z, zs, hz⟩ := List.exists_cons_of_ne_nil (decChars_ne_nil b)
  have hie2 : (decChars b).isEmpty = false := by rw [hz]; rfl
  simp only [parseXY, hdrop, hspan.1, hspan.2, hie, List.head?_cons, List.tail_cons,
    htw2, hie2, natOfDigits_decChars]
  simp

theorem parseXY_some_match {cs : List Char} {ab : Nat × Nat}
    (h : parseXY cs = some ab) : hasVersionMatch cs := by
  simp only [parseXY] at h
  by_cases hie : ((cs.dropWhile pyIsSpace).takeWhile Char.isDigit).isEmpty
  · rw [if_pos hie] at h
    exact absurd h (by simp)
  · rw [if_neg hie] at h
    by_cases hhd : ((cs.dropWhile pyIsSpace).dropWhile Char.isDigit).head? = some '.'
    · rw [if_pos hhd] at h
      by_cases hie2 :
          (((cs.dropWhile pyIsSpace).dropWhile Char.isDigit).tail.takeWhile Char.isDigit).isEmpty
      · rw [if_pos hie2] at h
        exact absurd h (by simp)
      · obtain ⟨ys, hys⟩ : ∃ ys, (cs.dropWhile pyIsSpace).dropWhile Char.isDigit = '.' :: ys := by
          cases hc : (cs.dropWhile pyIsSpace).dropWhile Char.isDigit with
          | nil => rw [hc] at hhd; exact absurd hhd (by simp)
          | cons y ys =>
            rw [hc] at hhd
            simp only [List.head?_cons, Option.some.injEq] at hhd
            exact ⟨ys, by rw [hhd]⟩
        have htail : ((cs.dropWhile pyIsSpace).dropWhile Char.isDigit).tail = ys := by
          rw [hys, List.tail_cons]
        rw [htail] at hie2
        refine ⟨cs.takeWhile pyIsSpace, (cs.dropWhile pyIsSpace).takeWhile Char.isDigit,
          ys.takeWhile Char.isDigit, ys.dropWhile Char.isDigit, ?_, ?_, ?_, ?_, ?_, ?_⟩
        · conv_lhs => rw [← @List.takeWhile_append_dropWhile _ pyIsSpace cs]
          rw [List.append_assoc]
          congr 1
          conv_lhs =>
            rw [← @List.takeWhile_append_dropWhile _ Char.isDigit (cs.dropWhile pyIsSpace)]
          congr 1
          rw [hys]
          congr 1
          exact (@List.takeWhile_append_dropWhile _ Char.isDigit ys).symm
        · exact fun c hc => mem_takeWhile_pred cs c hc
        · intro hnil
          apply hie
          rw [hnil]
          rfl
        · exact fun c hc => mem_takeWhile_pred (cs.dropWhile pyIsSpace) c hc
        · intro hnil
          apply hie2
          rw [hnil]
          rfl
        · exact fun c hc => mem_takeWhile_pred ys c hc
    · rw [if_neg hhd] at h
      exact absurd h (by simp)

theorem verParse_some_eq (s : String) :
    VulkanVersion.parse (some s) =
      match parseXY s.data with
      | none => none
      | some (p, q) => some ⟨p, q⟩ := rfl

/-! ## C9 -/

/-- C9: `VulkanVersion` parsing round-trips — whenever parsing a string
succeeds, converting the resulting version back to its `"X.Y"` string form
and parsing again yields the same version — and parsing fails (raises
`ValueError`, modelled as `none`) on `None` input and on every input
without a leading `\s*\d+\.\d+` match. -/
theorem claim9_version_roundtrip :
    (∀ (s : String) (v : VulkanVersion), VulkanVersion.parse (some s) = some v →
      VulkanVersion.parse (some v.str) = some v) ∧
    VulkanVersion.parse none = none ∧
    (∀ s : String, ¬ hasVersionMatch s.data → VulkanVersion.parse (some s) = none) := by
  refine ⟨?_, rfl, ?_⟩
  · intro s v _
    obtain ⟨a, b⟩ := v
    have hdata : (VulkanVersion.str ⟨a, b⟩).data = decChars a ++ '.' :: decChars b := rfl
    rw [verParse_some_eq, hdata, parseXY_render]
  · intro s hnm
    cases hxy : parseXY s.data with
    | none => rw [verParse_some_eq, hxy]
    | some ab => exact absurd (parseXY_some_match hxy) hnm

/-- C9 witness: the round trip applied at the concrete input `"1.2"`, and
the failure case applied at `""`, which has no leading version match. -/
theorem claim9_version_roundtrip_witness :
    VulkanVersion.parse (some (VulkanVersion.str ⟨1, 2⟩)) = some ⟨1, 2⟩ ∧
    VulkanVersion.parse (some "") = none := by
  constructor
  · exact claim9_version_roundtrip.1 "1.2" ⟨1, 2⟩ rfl
  · refine claim9_version_roundtrip.2.2 "" ?_
    rintro ⟨ws, d1, d2, rest, heq, -, -, -, -, -⟩
    have hmem : '.' ∈ ws ++ d1 ++ '.' :: (d2 ++ rest) := by simp
    rw [← heq] at hmem
    exact absurd hmem (by decide)

/-! ## C6 helper lemmas -/

theorem getD_eq_getF : ∀ (l : List Char) (e : Nat) (h : e < l.length), l.getD e ' ' = l.get ⟨e, h⟩ := by
  intro l
  induction l with
  | nil => intro e h; simp at h
  | cons a t ih =>
    intro e h
    cases e with
    | zero => rfl
    | succ e2 =>
      have h2 : e2 < t.length := by simpa using h
      simpa [List.getD_cons_succ] using ih e2 h2

theorem take_succ_getD : ∀ (cs : List Char) (e : Nat), e < cs.length →
    cs.take (e + 1) = cs.take e ++ [cs.getD e ' '] := by
  intro cs
  induction cs with
  | nil => intro e h; simp at h
  | cons a t ih =>
    intro e h
    cases e with
    | zero => simp
    | succ e2 =>
      have h2 : e2 < t.length := by simpa using h
      simp [List.take_succ_cons, List.getD_cons_succ, ih e2 h2]

theorem cnt_take_succ (c : Char) (cs : List Char) (e : Nat) (h : e < cs.length) :
    (cs.take (e + 1)).count c = (cs.take e).count c + (if cs.getD e ' ' = c then 1 else 0) := by
  rw [take_succ_getD cs e h, List.count_append]
  congr 1
  simp [List.count_cons, beq_iff_eq]

theorem opensCnt_succ_of (text : List Char) (e : Nat) (h : e < text.length) :
    opensCnt text (e + 1) = opensCnt text e + (if text.getD e ' ' = '(' then 1 else 0) :=
  cnt_take_succ '(' text e h

theorem closesCnt_succ_of (text : List Char) (e : Nat) (h : e < text.length) :
    closesCnt text (e + 1) = closesCnt text e + (if text.getD e ' ' = ')' then 1 else 0) :=
  cnt_take_succ ')' text e h

theorem pref_extend {text : List Char} {e : Nat}
    (hpref : ∀ k, k ≤ e → closesCnt text k ≤ opensCnt text k)
    (hstep : closesCnt text (e + 1) ≤ opensCnt text (e + 1)) :
    ∀ k, k ≤ e + 1 → closesCnt text k ≤ opensCnt text k := by
  intro k hk
  by_cases hke : k ≤ e
  · exact hpref k hke
  · have hk1 : k = e + 1 := by omega
    subst hk1
    exact hstep

theorem consume_open {text : List Char} {term : Char} {stack : List Nat} {e : Nat}
    (h : e < text.length) (hc : text.get ⟨e, h⟩ = '(') :
    consume text term stack e = .ok (some (e :: stack, e + 1)) := by
  rw [List.get_eq_getElem] at hc
  simp [consume, h, hc]

theorem consume_close_nil {text : List Char} {term : Char} {e : Nat}
    (h : e < text.length) (hc : text.get ⟨e, h⟩ = ')') :
    consume text term [] e = .error (.unmatchedClose e) := by
  rw [List.get_eq_getElem] at hc
  simp [consume, h, hc]

theorem consume_close_cons {text : List Char} {term : Char} {j : Nat} {rest : List Nat} {e : Nat}
    (h : e < text.length) (hc : text.get ⟨e, h⟩ = ')') :
    consume text term (j :: rest) e = .ok (some (rest, e + 1)) := by
  rw [List.get_eq_getElem] at hc
  simp [consume, h, hc]

theorem consume_term_nil {text : List Char} {term : Char} {e : Nat}
    (h : e < text.length) (hc1 : text.get ⟨e, h⟩ ≠ '(') (hc2 : text.get ⟨e, h⟩ ≠ ')')
    (hc3 : text.get ⟨e, h⟩ = term) :
    consume text term [] e = .ok none := by
  rw [List.get_eq_getElem] at hc1 hc2 hc3
  rw [hc3] at hc1 hc2
  simp [consume, h, hc3, hc1, hc2]

theorem consume_step {text : List Char} {term : Char} {stack : List Nat} {e : Nat}
    (h : e < text.length) (hc1 : text.get ⟨e, h⟩ ≠ '(') (hc2 : text.get ⟨e, h⟩ ≠ ')')
    (hc3 : ¬(text.get ⟨e, h⟩ = term ∧ stack = [])) :
    consume text term stack e = .ok (some (stack, e + 1)) := by
  simp only [consume, dif_pos h]
  rw [if_neg hc1, if_neg hc2, if_neg hc3]

theorem consume_end_nil {text : List Char} {term : Char} {e : Nat}
    (h : ¬ e < text.length) : consume text term [] e = .ok none := by
  simp [consume, h]

theorem consume_end_cons {text : List Char} {term : Char} {top : Nat} {rest : List Nat} {e : Nat}
    (h : ¬ e < text.length) : consume text term (top :: rest) e = .error (.unmatchedOpen top) := by
  simp [consume, h]

theorem scanTok_succ (text : List Char) (term : Char) (fuel : Nat) (stack : List Nat) (e : Nat) :
    scanTok text term (fuel + 1) stack e =
      match consume text term stack e with
      | .error err => .error err
      | .ok none => .ok e
      | .ok (some (stack2, e2)) => scanTok text term fuel stack2 e2 := rfl

theorem tokenizeFrom_succ (text : List Char) (term : Char) (fuel : Nat) (b : Nat) :
    tokenizeFrom text term (fuel + 1) b =
      if text.length ≤ b then .ok []
      else
        match scanTok text term (text.length + 1 - b) [] b with
        | .error err => .error err
        | .ok e =>
          match tokenizeFrom text term fuel (e + 1) with
          | .error err => .error err
          | .ok toks => .ok (((text.drop b).take (e - b)) :: toks) := rfl

theorem scanResSpec_mono {text : List Char} {term : Char} {e e2 : Nat} (hle : e ≤ e2)
    {r : Except TokError Nat} (h : scanResSpec text term e2 r) : scanResSpec text term e r := by
  cases r with
  | error err => exact h
  | ok e3 =>
    simp only [scanResSpec] at h ⊢
    obtain ⟨h1, h2, h3, h4, h5⟩ := h
    exact ⟨by omega, h2, h3, h4, h5⟩

theorem scanTok_sound (text : List Char) (term : Char) :
    ∀ (fuel : Nat) (stack : List Nat) (e : Nat),
      e ≤ text.length → text.length + 1 ≤ fuel + e →
      (∀ i ∈ stack, i < e ∧ text.getD i ' ' = '(') →
      stack.length + closesCnt text e = opensCnt text e →
      (∀ k, k ≤ e → closesCnt text k ≤ opensCnt text k) →
      scanResSpec text term e (scanTok text term fuel stack e) := by
  intro fuel
  induction fuel with
  | zero =>
    intro stack e he hfuel _ _ _
    exact absurd hfuel (by omega)
  | succ fuel ih =>
    intro stack e he hfuel hstack hdepth hpref
    by_cases hlt : e < text.length
    · have hgd : text.getD e ' ' = text.get ⟨e, hlt⟩ := getD_eq_getF text e hlt
      by_cases hpar : text.get ⟨e, hlt⟩ = '('
      · -- push the open paren
        have hgdv : text.getD e ' ' = '(' := by rw [hgd]; exact hpar
        have hO : (if text.getD e ' ' = '(' then 1 else 0) = 1 := by rw [if_pos hgdv]
        have hC : (if text.getD e ' ' = ')' then 1 else 0) = 0 := by
          rw [if_neg (by rw [hgdv]; decide)]
        have hOp := opensCnt_succ_of text e hlt
        have hCl := closesCnt_succ_of text e hlt
        rw [hO] at hOp
        rw [hC] at hCl
        rw [scanTok_succ, consume_open hlt hpar]
        refine scanResSpec_mono (by omega)
          (ih (e :: stack) (e + 1) (by omega) (by omega) ?_ ?_ ?_)
        · intro i hi
          rcases List.mem_cons.mp hi with hi | hi
          · subst hi; exact ⟨by omega, hgdv⟩
          · obtain ⟨hi1, hi2⟩ := hstack i hi
            exact ⟨by omega, hi2⟩
        · simp only [List.length_cons]
          omega
        · exact pref_extend hpref (by omega)
      · by_cases hclo : text.get ⟨e, hlt⟩ = ')'
        · have hgdv : text.getD e ' ' = ')' := by rw [hgd]; exact hclo
          have hO : (if text.getD e ' ' = '(' then 1 else 0) = 0 := by
            rw [if_neg (by rw [hgdv]; decide)]
          have hC : (if text.getD e ' ' = ')' then 1 else 0) = 1 := by rw [if_pos hgdv]
          have hOp := opensCnt_succ_of text e hlt
          have hCl := closesCnt_succ_of text e hlt
          rw [hO] at hOp
          rw [hC] at hCl
          cases stack with
          | nil =>
            rw [scanTok_succ, consume_close_nil hlt hclo]
            exact ⟨hlt, hgdv⟩
          | cons j rest =>
            rw [scanTok_succ, consume_close_cons hlt hclo]
            simp only [List.length_cons] at hdepth
            refine scanResSpec_mono (by omega)
              (ih rest (e + 1) (by omega) (by omega) ?_ ?_ ?_)
            · intro i hi
              obtain ⟨hi1, hi2⟩ := hstack i (List.mem_cons_of_mem j hi)
              exact ⟨by omega, hi2⟩
            · omega
            · exact pref_extend hpref (by omega)
        · have hO : (if text.getD e ' ' = '(' then 1 else 0) = 0 := by
            rw [if_neg (by rw [hgd]; exact hpar)]
          have hC : (if text.getD e ' ' = ')' then 1 else 0) = 0 := by
            rw [if_neg (by rw [hgd]; exact hclo)]
          have hOp := opensCnt_succ_of text e hlt
          have hCl := closesCnt_succ_of text e hlt
          rw [hO] at hOp
          rw [hC] at hCl
          by_cases hterm : text.get ⟨e, hlt⟩ = term ∧ stack = []
          · obtain ⟨ht, hs⟩ := hterm
            subst hs
            rw [scanTok_succ, consume_term_nil hlt hpar hclo ht]
            refine ⟨le_refl e, he, ?_, hpref, Or.inr ⟨hlt, by rw [hgd]; exact ht⟩⟩
            simpa using hdepth
          · rw [scanTok_succ, consume_step hlt hpar hclo hterm]
            refine scanResSpec_mono (by omega)
              (ih stack (e + 1) (by omega) (by omega) ?_ ?_ ?_)
            · intro i hi
              obtain ⟨hi1, hi2⟩ := hstack i hi
              exact ⟨by omega, hi2⟩
            · omega
            · exact pref_extend hpref (by omega)
    · cases stack with
      | nil =>
        rw [scanTok_succ, consume_end_nil hlt]
        refine ⟨le_refl e, he, ?_, hpref, Or.inl (by omega)⟩
        simpa using hdepth
      | cons top rest =>
        rw [scanTok_succ, consume_end_cons hlt]
        obtain ⟨h1, h2⟩ := hstack top (List.mem_cons_self top rest)
        exact ⟨by omega, h2⟩

theorem tokenizeFrom_sound (text : List Char) (term : Char) (hop : term ≠ '(') (hcl : term ≠ ')') :
    ∀ (fuel b : Nat),
      text.length + 1 ≤ fuel + b →
      (∀ k, k ≤ min b text.length → closesCnt text k ≤ opensCnt text k) →
      closesCnt text (min b text.length) = opensCnt text (min b text.length) →
      tokResSpec text (tokenizeFrom text term fuel b) := by
  intro fuel
  induction fuel with
  | zero =>
    intro b h1 h2 h3
    have hmin : min b text.length = text.length := by omega
    rw [hmin] at h2 h3
    exact ⟨h2, h3⟩
  | succ fuel ih =>
    intro b h1 h2 h3
    rw [tokenizeFrom_succ]
    by_cases hb : text.length ≤ b
    · rw [if_pos hb]
      have hmin : min b text.length = text.length := by omega
      rw [hmin] at h2 h3
      exact ⟨h2, h3⟩
    · rw [if_neg hb]
      have hmin : min b text.length = b := by omega
      rw [hmin] at h2 h3
      have hscan := scanTok_sound text term (text.length + 1 - b) [] b (by omega)
        (by omega) (by intro i hi; exact absurd hi (by simp)) (by simpa using h3) h2
      cases hres : scanTok text term (text.length + 1 - b) [] b with
      | error err =>
        rw [hres] at hscan
        exact hscan
      | ok e2 =>
        rw [hres] at hscan
        simp only [scanResSpec] at hscan
        obtain ⟨hbe2, he2len, heq2, hprefE, hstop⟩ := hscan
        have hnext : (∀ k, k ≤ min (e2 + 1) text.length → closesCnt text k ≤ opensCnt text k) ∧
            closesCnt text (min (e2 + 1) text.length) =
              opensCnt text (min (e2 + 1) text.length) := by
          rcases hstop with hstop | ⟨hlt2, hterm2⟩
          · subst hstop
            have hm : min (text.length + 1) text.length = text.length := by omega
            rw [hm]
            exact ⟨hprefE, heq2⟩
          · have hm : min (e2 + 1) text.length = e2 + 1 := by omega
            rw [hm]
            have hO : (if text.getD e2 ' ' = '(' then 1 else 0) = 0 := by
              rw [if_neg (by rw [hterm2]; exact hop)]
            have hC : (if text.getD e2 ' ' = ')' then 1 else 0) = 0 := by
              rw [if_neg (by rw [hterm2]; exact hcl)]
            have hOp := opensCnt_succ_of text e2 hlt2
            have hCl := closesCnt_succ_of text e2 hlt2
            rw [hO] at hOp
            rw [hC] at hCl
            exact ⟨pref_extend hprefE (by omega), by omega⟩
        have hrec := ih (e2 + 1) (by omega) hnext.1 hnext.2
        show tokResSpec text
          (match tokenizeFrom text term fuel (e2 + 1) with
           | .error err => .error err
           | .ok toks => .ok (((text.drop b).take (e2 - b)) :: toks))
        cases hres2 : tokenizeFrom text term fuel (e2 + 1) with
        | error err2 =>
          rw [hres2] at hrec
          exact hrec
        | ok toks =>
          rw [hres2] at hrec
          exact hrec

/-! ## C6 -/

/-- C6: for every dependency-expression text containing an unmatched `'('`
or `')'` — i.e. whose parentheses are unbalanced: some prefix closes more
than it opens, or the totals differ — tokenization (with any terminator
that is not itself a parenthesis, covering both the comma and the plus
tokenizer) returns a `ValueError` whose payload identifies the index of an
offending parenthesis of the reported kind, rather than producing tokens. -/
theorem claim6_unmatched_paren_error (s : String) (term : Char)
    (h1 : term ≠ '(') (h2 : term ≠ ')') (h3 : unbalancedParens s.data) :
    ∃ err, tokenizeAll s.data term = .error err ∧ tokErrSpec s.data err := by
  have hz : ∀ k, k ≤ min 0 s.data.length → closesCnt s.data k ≤ opensCnt s.data k := by
    intro k hk
    have hk0 : k = 0 := by omega
    subst hk0
    exact le_refl 0
  have hz2 : closesCnt s.data (min 0 s.data.length) = opensCnt s.data (min 0 s.data.length) := by
    have hm : min 0 s.data.length = 0 := by omega
    rw [hm]
    rfl
  have H := tokenizeFrom_sound s.data term h1 h2 (s.data.length + 1) 0 (by omega) hz hz2
  cases hres : tokenizeAll s.data term with
  | ok toks =>
    exfalso
    have hres' : tokenizeFrom s.data term (s.data.length + 1) 0 = .ok toks := hres
    rw [hres'] at H
    simp only [tokResSpec] at H
    rcases h3 with ⟨k, hk, hlt⟩ | hne
    · exact absurd (H.1 k hk) (by omega)
    · exact hne H.2.symm
  | error err =>
    have hres' : tokenizeFrom s.data term (s.data.length + 1) 0 = .error err := hres
    rw [hres'] at H
    exact ⟨err, rfl, H⟩

/-- C6 witness: the unbalanced text `")"` with the comma terminator. -/
theorem claim6_unmatched_paren_error_witness :
    ∃ err, tokenizeAll ")".data ',' = .error err ∧ tokErrSpec ")".data err :=
  claim6_unmatched_paren_error ")" ',' (by decide) (by decide)
    (Or.inl ⟨1, by decide, by decide⟩)
